import Mathlib

/-!
Verification of the `pal-paul/go-libraries` repository against its
natural-language specification.

The development shallowly embeds the parts of the repository that the
claims touch:

* the `env` package (environment-variable struct decoder): the
  implementation file is absent from the source tree (only its tests,
  `errors.go` and the readme are present), so the decoder is modelled
  from the specification, with the package's own tests taken as the
  authority wherever they pin behaviour;
* `pkg/slack/internal.go` (`checkStatusCode`);
* `pkg/git/git.go` (`GetAFile`, `GetBranch`).

Machine integers are modelled as `Int` with explicit wraparound where Go
would overflow.  Fallible code returns `Except`/`Option`.
-/

namespace GoEnv

/-- Lower-case a string character by character (model of Go
`strings.ToLower` restricted to what the decoder needs). -/
def lower (s : String) : String := String.mk (s.data.map Char.toLower)

/-- Split a character list at the first `'='`: returns the part before
and the part after, or `none` when no `'='` occurs.  This is the model of
Go `strings.SplitN(s, "=", 2)`. -/
def splitEqList : List Char → Option (List Char × List Char)
  | [] => none
  | c :: cs =>
    if c = '=' then some ([], cs)
    else (splitEqList cs).map (fun p => (c :: p.1, p.2))

/-- Split a string at the first `'='` only (values may legitimately
contain `'='`). -/
def splitFirstEq (s : String) : Option (String × String) :=
  (splitEqList s.data).map (fun p => (String.mk p.1, String.mk p.2))

/-- Split a character list on every occurrence of a separator character;
model of Go `strings.Split`.  Splitting the empty list yields one empty
segment, as in Go. -/
def splitOnChar (sep : Char) : List Char → List (List Char)
  | [] => [[]]
  | c :: cs =>
    let r := splitOnChar sep cs
    if c = sep then [] :: r
    else
      match r with
      | [] => [[c]]
      | seg :: rest => (c :: seg) :: rest

/-- The comma-separated segments of a struct-tag annotation string. -/
def tagSegments (ann : String) : List String :=
  (splitOnChar ',' ann.data).map String.mk

/-- An environment set: mapping from variable name (case-sensitive) to
its string value.  Modelled as an association list; `envLookup` returns
the first binding. -/
abbrev envSet := List (String × String)

/-- Look a key up in an environment set.  A key mapped to the empty
string is present (`some ""`). -/
def envLookup : envSet → String → Option String
  | [], _ => none
  | (k, v) :: rest, key => if k = key then some v else envLookup rest key

/-- The error taxonomy of the `env` package, from `pkg/env/errors.go`
(`ErrMissingRequiredValue`, `ErrInvalidValue`, `ErrUnexportedType`,
`ErrUnsupportedField`, `ErrInvalidEnvSet`); `errCustom` carries an error
produced by a user custom-unmarshal hook, propagated unchanged. -/
inductive envError where
  | errMissingRequiredValue (v : String)
  | errInvalidValue (v : String)
  | errUnexportedType (v : String)
  | errUnsupportedField (v : String)
  | errInvalidEnvSet (v : String)
  | errCustom (msg : String)
  deriving DecidableEq

/-- Modelled from the spec: the Field Rule derived from one annotation
(`candidate_keys`, `required`, `default_value`); the decoder source file
that declares it is absent from the source tree. -/
structure tagRule where
  keys : List String
  required : Bool
  defaultValue : Option String
  deriving DecidableEq

/-- The rule state before any segment is applied.  `required` starts out
`false`: the package's own test `TestUnmarshal/with required field`
succeeds with every modifier-free field absent, so a field whose
annotation lists only candidate keys is optional. -/
def initTag : tagRule := ⟨[], false, none⟩

/-- Interpret a `required=<token>` value case-insensitively:
`true`/`1`/`yes` mean required, `false`/`0`/`no` mean optional, anything
else is unrecognized. -/
def requiredTokenValue (tok : String) : Option Bool :=
  if tok = "true" ∨ tok = "1" ∨ tok = "yes" then some true
  else if tok = "false" ∨ tok = "0" ∨ tok = "no" then some false
  else none

/-- Modelled from the spec: apply one annotation segment to the rule
being built.  A `default=<literal>` segment stores the literal verbatim
(split on the first `'='` only); `required=<token>` sets required-ness;
a bare `required` (case-insensitive) sets `required := true`; any other
`key=value`-shaped segment is an unsupported-field error; every other
segment is a candidate environment-variable name, in order. -/
def applySegment (t : tagRule) (seg : String) : Except envError tagRule :=
  match splitFirstEq seg with
  | some (k, v) =>
    if lower k = "default" then .ok { t with defaultValue := some v }
    else if lower k = "required" then
      match requiredTokenValue (lower v) with
      | some b => .ok { t with required := b }
      | none => .error (.errUnsupportedField seg)
    else .error (.errUnsupportedField seg)
  | none =>
    if lower seg = "required" then .ok { t with required := true }
    else .ok { t with keys := t.keys ++ [seg] }

/-- Fold `applySegment` over a list of segments, failing fast. -/
def parseTagAux : tagRule → List String → Except envError tagRule
  | t, [] => .ok t
  | t, seg :: rest =>
    match applySegment t seg with
    | .ok t2 => parseTagAux t2 rest
    | .error e => .error e

/-- Modelled from the spec: the Tag Parser — derive a Field Rule from a
raw annotation string (comma-separated segments). -/
def parseTag (ann : String) : Except envError tagRule :=
  parseTagAux initTag (tagSegments ann)

/-- The candidate keys contributed by a list of `'='`-free segments:
every segment except the bare (case-insensitive) `required` modifier. -/
def tagKeysOf : List String → List String
  | [] => []
  | s :: rest =>
    if lower s = "required" then tagKeysOf rest else s :: tagKeysOf rest

/-- Whether a list of `'='`-free segments contains the bare
(case-insensitive) `required` modifier. -/
def hasBareRequired : List String → Bool
  | [] => false
  | s :: rest => if lower s = "required" then true else hasBareRequired rest

/-- Look up each candidate key in the environment set, in order; the
first present key wins, even if its value is the empty string. -/
def firstPresent (es : envSet) : List String → Option String
  | [] => none
  | k :: ks =>
    match envLookup es k with
    | some v => some v
    | none => firstPresent es ks

/-- Modelled from the spec: boolean coercion accepts, case-insensitively,
`true/false`, `1/0`, `yes/no`, `on/off`; anything else is rejected. -/
def parseBoolToken (s : String) : Option Bool :=
  let t := lower s
  if t = "true" ∨ t = "1" ∨ t = "yes" ∨ t = "on" then some true
  else if t = "false" ∨ t = "0" ∨ t = "no" ∨ t = "off" then some false
  else none

/-- Accumulate base-10 digits; fails on the first non-digit character. -/
def digitsToNat : Nat → List Char → Option Nat
  | acc, [] => some acc
  | acc, c :: cs =>
    if c.isDigit then digitsToNat (acc * 10 + (c.toNat - 48)) cs else none

/-- A non-empty run of base-10 digits, as a number. -/
def parseDecNat (cs : List Char) : Option Nat :=
  match cs with
  | [] => none
  | _ => digitsToNat 0 cs

/-- Model of Go `strconv.ParseInt(s, 10, 64)`: optional single sign,
then a non-empty run of base-10 digits; the value must fit in a signed
64-bit integer, otherwise the parse fails (overflow error). -/
def goParseInt64 (s : String) : Option Int :=
  let (neg, ds) :=
    match s.data with
    | '+' :: rest => (false, rest)
    | '-' :: rest => (true, rest)
    | l => (false, l)
  match parseDecNat ds with
  | none => none
  | some n =>
    let v : Int := if neg then -(n : Int) else (n : Int)
    if -(2 ^ 63) ≤ v ∧ v < 2 ^ 63 then some v else none

/-- The longest run of base-10 digits at the head of a character list,
and the remainder. -/
def spanDigits : List Char → List Char × List Char
  | [] => ([], [])
  | c :: cs =>
    if c.isDigit then
      let (a, b) := spanDigits cs
      (c :: a, b)
    else ([], c :: cs)

/-- Modelled from the spec: recognizer for the decimal/exponential
floating-point grammar (`digits [. digits] [e|E [sign] digits]`, at
least one mantissa digit), applied after the sign is stripped. -/
def floatMantissaExpOk (l : List Char) : Bool :=
  let (d1, r1) := spanDigits l
  let (d2, r2) :=
    match r1 with
    | '.' :: rest => spanDigits rest
    | _ => (([] : List Char), r1)
  if d1 = [] ∧ d2 = [] then false
  else
    match r2 with
    | [] => true
    | e :: rest =>
      if e = 'e' ∨ e = 'E' then
        let rest2 :=
          match rest with
          | '+' :: r => r
          | '-' :: r => r
          | r => r
        let (d3, r3) := spanDigits rest2
        decide (d3 ≠ [] ∧ r3 = [])
      else false

/-- Modelled from the spec: does a string parse as a floating-point
number (standard decimal/exponential grammar, with the `inf`/`nan`
special forms)? -/
def goParseFloatOk (s : String) : Bool :=
  let l :=
    match s.data with
    | '+' :: r => r
    | '-' :: r => r
    | r => r
  let ls := String.mk (l.map Char.toLower)
  if ls = "inf" ∨ ls = "infinity" ∨ ls = "nan" then true
  else floatMantissaExpOk l

/-- The recognized duration unit suffixes of the compound unit grammar
(Go `time.ParseDuration`). -/
def durationUnits : List (List Char) :=
  [['n', 's'], ['u', 's'], ['µ', 's'], ['μ', 's'], ['m', 's'], ['s'], ['m'], ['h']]

/-- The longest run of characters that are neither digits nor `'.'` at
the head of a character list (a candidate unit suffix), and the rest. -/
def spanUnit : List Char → List Char × List Char
  | [] => ([], [])
  | c :: cs =>
    if c.isDigit ∨ c = '.' then ([], c :: cs)
    else
      let (a, b) := spanUnit cs
      (c :: a, b)

/-- One pass of the duration grammar loop: each term is
`digits [. digits] unit` with at least one digit before or after the
point and a recognized unit; terms repeat until the input is consumed.
The fuel argument bounds the recursion by the input length. -/
def durationLoop : Nat → List Char → Bool
  | _, [] => true
  | 0, _ => false
  | fuel + 1, l =>
    let (d1, r1) := spanDigits l
    let (d2, r2) :=
      match r1 with
      | '.' :: rest => spanDigits rest
      | _ => (([] : List Char), r1)
    if d1 = [] ∧ d2 = [] then false
    else
      let (u, r3) := spanUnit r2
      if u ∈ durationUnits then durationLoop fuel r3 else false

/-- Modelled from the spec: does a string parse under the compound unit
duration grammar (e.g. `1h30m`, `500ms`)?  An optional single sign comes
first; the bare string `0` is accepted without a unit. -/
def goParseDurationOk (s : String) : Bool :=
  let l :=
    match s.data with
    | '+' :: r => r
    | '-' :: r => r
    | r => r
  if String.mk l = "0" then true
  else if l = [] then false
  else durationLoop l.length l

/-- The semantic types of bindable leaf fields.  A custom type carries
its `UnmarshalEnvironmentValue` hook, which maps the raw string to the
stored state or to an error message. -/
inductive fieldType where
  | stringType
  | boolType
  | intType
  | floatType
  | durationType
  | ptrType (inner : fieldType)
  | customType (hook : String → Except String String)

/-- A value written into a field by the binder. -/
inductive value where
  | vString (s : String)
  | vBool (b : Bool)
  | vInt (n : Int)
  | vFloat (lit : String)
  | vDuration (lit : String)
  | vPtr (v : value)
  | vCustom (s : String)
  deriving DecidableEq

/-- Modelled from the spec: coerce the resolved raw string into the
field's semantic type.  A custom-unmarshal hook receives the raw string
unmodified and its result (or error) is taken as-is; a pointer type
allocates and coerces the pointee; `float`/`duration` values are stored
as their validated literals (the claims under verification only concern
acceptance and rejection of those literals). -/
def setValue (ty : fieldType) (raw : String) : Except envError value :=
  match ty with
  | .customType hook =>
    match hook raw with
    | .ok out => .ok (.vCustom out)
    | .error e => .error (.errCustom e)
  | .stringType => .ok (.vString raw)
  | .boolType =>
    match parseBoolToken raw with
    | some b => .ok (.vBool b)
    | none => .error (.errInvalidValue raw)
  | .intType =>
    match goParseInt64 raw with
    | some n => .ok (.vInt n)
    | none => .error (.errInvalidValue raw)
  | .floatType =>
    if goParseFloatOk raw then .ok (.vFloat raw) else .error (.errInvalidValue raw)
  | .durationType =>
    if goParseDurationOk raw then .ok (.vDuration raw) else .error (.errInvalidValue raw)
  | .ptrType inner => (setValue inner raw).map .vPtr

/-- One structural field of a target: its name, semantic type, and the
raw `env:"..."` annotation (when present). -/
structure structField where
  name : String
  type : fieldType
  envTag : Option String

/-- Modelled from the spec: bind one leaf field.  A field with no (or an
empty) annotation is skipped; an empty candidate-key list is an
unsupported field; otherwise the first present candidate key wins, then
the default, then required-ness decides between a missing-required error
and leaving the field at its zero value (`none`). -/
def bindField (es : envSet) (f : structField) : Except envError (Option value) :=
  match f.envTag with
  | none => .ok none
  | some ann =>
    if ann = "" then .ok none
    else
      match parseTag ann with
      | .error e => .error e
      | .ok t =>
        if t.keys = [] then .error (.errUnsupportedField f.name)
        else
          match firstPresent es t.keys with
          | some raw => (setValue f.type raw).map some
          | none =>
            match t.defaultValue with
            | some d => (setValue f.type d).map some
            | none =>
              if t.required then
                .error (.errMissingRequiredValue (String.intercalate "," t.keys))
              else .ok none

/-- Bind every field of a structure in declaration order, failing fast
on the first error (no partial result is reported past a failure). -/
def bindFields (es : envSet) : List structField → Except envError (List (String × Option value))
  | [] => .ok []
  | f :: fs =>
    match bindField es f with
    | .error e => .error e
    | .ok v =>
      match bindFields es fs with
      | .error e => .error e
      | .ok rest => .ok ((f.name, v) :: rest)

/-- The shapes a decode target can take: nil, a non-pointer value, a
pointer to a non-struct value (each remembered with the concrete type
name Go reflection would print), or a pointer to a struct with its
fields. -/
inductive target where
  | nilTarget
  | nonPointer (typeName : String)
  | pointerToNonStruct (typeName : String)
  | pointerToStruct (fields : List structField)

/-- Modelled from the spec: `unmarshal` (the `decode_from_set` entry
point).  A nil, non-pointer, or pointer-to-non-struct target fails with
the invalid-value error carrying the concrete type name, and nothing is
bound; a pointer to a struct has its fields bound in order. -/
def unmarshal (es : envSet) (tgt : target) : Except envError (List (String × Option value)) :=
  match tgt with
  | .nilTarget => .error (.errInvalidValue "<nil>")
  | .nonPointer tn => .error (.errInvalidValue tn)
  | .pointerToNonStruct tn => .error (.errInvalidValue tn)
  | .pointerToStruct fields => bindFields es fields

/-- Modelled from the spec: `envToEnvSet` (`build_environment_set`) —
split each `KEY=VALUE` entry on the first `'='` only; an entry with no
`'='` fails the whole build with an invalid-environment-entry error
naming that entry. -/
def envToEnvSet : List String → Except envError envSet
  | [] => .ok []
  | entry :: rest =>
    match splitFirstEq entry with
    | none => .error (.errInvalidEnvSet entry)
    | some (k, v) =>
      match envToEnvSet rest with
      | .error e => .error e
      | .ok es => .ok ((k, v) :: es)

/-- The custom-unmarshal hook of `customUnmarshaler` in
`pkg/env/env_test.go`: stores `"custom_" ++ data` and never fails. -/
def customUnmarshalerHook : String → Except String String :=
  fun data => .ok ("custom_" ++ data)

/-- The fields of `testConfig` from `pkg/env/env_test.go`, in
declaration order. -/
def testConfigFields : List structField :=
  [⟨"String", .stringType, some "TEST_STRING"⟩,
   ⟨"StringPtr", .ptrType .stringType, some "TEST_STRING_PTR"⟩,
   ⟨"Bool", .boolType, some "TEST_BOOL"⟩,
   ⟨"Int", .intType, some "TEST_INT"⟩,
   ⟨"Float64", .floatType, some "TEST_FLOAT"⟩,
   ⟨"Duration", .durationType, some "TEST_DURATION"⟩,
   ⟨"Required", .stringType, some "TEST_REQUIRED,required"⟩,
   ⟨"WithDefault", .stringType, some "TEST_DEFAULT,default=defaultValue"⟩,
   ⟨"Multiple", .stringType, some "TEST_MULTIPLE_1,TEST_MULTIPLE_2"⟩]

/-- The fields of `testConfigWithCustom` from `pkg/env/env_test.go`. -/
def testConfigWithCustomFields : List structField :=
  [⟨"Custom", .customType customUnmarshalerHook, some "TEST_CUSTOM"⟩]

end GoEnv

namespace GoSlack

/-- Wrap an integer to the signed 64-bit range, as Go arithmetic on
`int64`/`time.Duration` does on overflow. -/
def int64Wrap (x : Int) : Int := (x + 2 ^ 63) % 2 ^ 64 - 2 ^ 63

/-- The outcomes of `checkStatusCode` in `pkg/slack/internal.go` when it
returns a non-nil error: `ErrRateLimit` carrying a `time.Duration` in
nanoseconds, the error from `strconv.ParseInt` on the `Retry-After`
header, or the generic unexpected-status-code error. -/
inductive slackStatusError where
  | rateLimit (durationNs : Int)
  | retryAfterParseFailed (header : String)
  | unexpectedStatusCode (code : Nat)
  deriving DecidableEq

/-- Model of `checkStatusCode` in `pkg/slack/internal.go`: on status 429
the `Retry-After` header is parsed as a base-10 64-bit integer — a parse
failure returns that error, success returns `ErrRateLimit` with
`time.Duration(retry) * time.Second` (nanoseconds, 64-bit wraparound);
any other status except 200 returns the unexpected-status error; 200
returns no error (`none`). -/
def checkStatusCode (statusCode : Nat) (retryAfterHeader : String) : Option slackStatusError :=
  if statusCode = 429 then
    match GoEnv.goParseInt64 retryAfterHeader with
    | some n => some (.rateLimit (int64Wrap (n * 1000000000)))
    | none => some (.retryAfterParseFailed retryAfterHeader)
  else if statusCode ≠ 200 then some (.unexpectedStatusCode statusCode)
  else none

end GoSlack

namespace GoGit

/-- The part of an HTTP response `GetAFile`/`GetBranch` inspect: the
numeric status code and its text (Go `resp.Status`). -/
structure httpResponse where
  statusCode : Nat
  status : String

/-- Model of `FileInfo` from `pkg/git/structs.go`. -/
structure FileInfo where
  name : String
  path : String
  sha : String
  size : Int
  url : String
  htmlUrl : String
  gitUrl : String
  downloadUrl : String
  type : String
  content : String
  encoding : String
  deriving DecidableEq

/-- Model of `Object` from `pkg/git/structs.go`. -/
structure Object where
  sha : String
  type : String
  url : String
  deriving DecidableEq

/-- Model of `BranchInfo` from `pkg/git/structs.go`. -/
structure BranchInfo where
  ref : String
  nodeId : String
  url : String
  object : Object
  deriving DecidableEq

/-- The errors the modelled `GetAFile`/`GetBranch` paths can return. -/
inductive gitError where
  | fileNotFound (path : String)
  | failedToGetFile (path : String) (status : String)
  | failedToGetBranch (branch : String) (status : String)
  | bodyDecodeFailed (msg : String)
  deriving DecidableEq

/-- Model of `GetAFile` in `pkg/git/git.go` after its HTTP GET has
produced a response (the transport-error path returns that error
upstream and is not modelled): status 404 returns a nil `FileInfo` and
the `file not found` error naming the path; any other non-200 status
returns the `failed to get file` error; the source then repeats both
checks — a second 404 check that would return `(nil, nil)` and a second
non-200 check — before reading and decoding the body, whose outcome is
supplied here as `decode`. -/
def getAFile (filePath : String) (resp : httpResponse) (decode : Except String FileInfo) :
    Option FileInfo × Option gitError :=
  if resp.statusCode = 404 then (none, some (.fileNotFound filePath))
  else if resp.statusCode ≠ 200 then (none, some (.failedToGetFile filePath resp.status))
  else if resp.statusCode = 404 then (none, none)
  else if resp.statusCode ≠ 200 then (none, some (.failedToGetFile filePath resp.status))
  else
    match decode with
    | .error e => (none, some (.bodyDecodeFailed e))
    | .ok fi => (some fi, none)

/-- The guard chain of `GetAFile` leading to its second 404 branch (the
one that returns `(nil, nil)`): that branch is reached only when the
first 404 check and the first non-200 check both fell through, and is
taken only when the status then equals 404. -/
def getAFileDeadBranchTaken (statusCode : Nat) : Bool :=
  if statusCode = 404 then false
  else if statusCode ≠ 200 then false
  else if statusCode = 404 then true
  else false

/-- Model of `GetBranch` in `pkg/git/git.go` after its HTTP GET has
produced a response: status 404 returns `(nil, nil)` (no error); any
other non-200 status returns the `failed to get branch` error; on 200
the decoded body is returned. -/
def getBranch (branch : String) (resp : httpResponse) (decode : Except String BranchInfo) :
    Option BranchInfo × Option gitError :=
  if resp.statusCode = 404 then (none, none)
  else if resp.statusCode ≠ 200 then (none, some (.failedToGetBranch branch resp.status))
  else
    match decode with
    | .error e => (none, some (.bodyDecodeFailed e))
    | .ok bi => (some bi, none)

end GoGit

/-! ### Helper lemmas -/

/-- Splitting at the first `'='` fails exactly when no `'='` occurs. -/
theorem GoEnv.splitEqList_eq_none (cs : List Char) :
    GoEnv.splitEqList cs = none ↔ '=' ∉ cs := by
  induction cs with
  | nil => simp [GoEnv.splitEqList]
  | cons c cs ih =>
    by_cases hc : c = '='
    · subst hc
      simp [GoEnv.splitEqList]
    · rw [GoEnv.splitEqList, if_neg hc, Option.map_eq_none', ih]
      simp [List.mem_cons, eq_comm, hc]

/-- Splitting a list of the shape `pre ++ '=' :: rest`, with no `'='` in
`pre`, yields exactly `(pre, rest)`. -/
theorem GoEnv.splitEqList_append (pre rest : List Char) (h : '=' ∉ pre) :
    GoEnv.splitEqList (pre ++ '=' :: rest) = some (pre, rest) := by
  induction pre with
  | nil => simp [GoEnv.splitEqList]
  | cons c cs ih =>
    have hc : c ≠ '=' := by
      intro hc; exact h (hc ▸ List.mem_cons_self c cs)
    have hcs : '=' ∉ cs := fun hm => h (List.mem_cons_of_mem c hm)
    simp [GoEnv.splitEqList, hc, ih hcs]

/-- A string with no `'='` has no first-`'='` split. -/
theorem GoEnv.splitFirstEq_of_no_eq (s : String) (h : '=' ∉ s.data) :
    GoEnv.splitFirstEq s = none := by
  simp [GoEnv.splitFirstEq, (GoEnv.splitEqList_eq_none s.data).mpr h]

/-- Splitting `k ++ "=" ++ v` at the first `'='`, when `k` itself has no
`'='`, recovers `(k, v)` — in particular the value part may contain
further `'='` characters. -/
theorem GoEnv.splitFirstEq_append (k v : String) (h : '=' ∉ k.data) :
    GoEnv.splitFirstEq (k ++ "=" ++ v) = some (k, v) := by
  have hdata : (k ++ "=" ++ v).data = k.data ++ '=' :: v.data := by
    simp [String.data_append]
  simp [GoEnv.splitFirstEq, hdata, GoEnv.splitEqList_append k.data v.data h]

/-- Keys of an appended segment list. -/
theorem GoEnv.tagKeysOf_append (a b : List String) :
    GoEnv.tagKeysOf (a ++ b) = GoEnv.tagKeysOf a ++ GoEnv.tagKeysOf b := by
  induction a with
  | nil => simp [GoEnv.tagKeysOf]
  | cons s rest ih =>
    by_cases hs : GoEnv.lower s = "required" <;> simp [GoEnv.tagKeysOf, hs, ih]

/-- Bare-`required` detection over an appended segment list. -/
theorem GoEnv.hasBareRequired_append (a b : List String) :
    GoEnv.hasBareRequired (a ++ b) = (GoEnv.hasBareRequired a || GoEnv.hasBareRequired b) := by
  induction a with
  | nil => simp [GoEnv.hasBareRequired]
  | cons s rest ih =>
    by_cases hs : GoEnv.lower s = "required" <;> simp [GoEnv.hasBareRequired, hs, ih]

/-- Folding the segment interpreter over an appended list runs the first
part and, on success, continues with the second. -/
theorem GoEnv.parseTagAux_append (a b : List String) (t : GoEnv.tagRule) :
    GoEnv.parseTagAux t (a ++ b) =
      match GoEnv.parseTagAux t a with
      | .ok t2 => GoEnv.parseTagAux t2 b
      | .error e => .error e := by
  induction a generalizing t with
  | nil => simp [GoEnv.parseTagAux]
  | cons seg rest ih =>
    simp only [List.cons_append, GoEnv.parseTagAux]
    cases GoEnv.applySegment t seg with
    | ok t2 => exact ih t2
    | error e => rfl

/-- Characterization of the tag parser on `'='`-free segments: every
segment is either the bare `required` modifier or a candidate key, in
order; the default value is untouched. -/
theorem GoEnv.parseTagAux_no_eq (segs : List String) (t : GoEnv.tagRule)
    (h : ∀ s ∈ segs, '=' ∉ s.data) :
    GoEnv.parseTagAux t segs =
      .ok ⟨t.keys ++ GoEnv.tagKeysOf segs,
           t.required || GoEnv.hasBareRequired segs,
           t.defaultValue⟩ := by
  induction segs generalizing t with
  | nil => simp [GoEnv.parseTagAux, GoEnv.tagKeysOf, GoEnv.hasBareRequired]
  | cons seg rest ih =>
    have hseg : '=' ∉ seg.data := h seg (List.mem_cons_self seg rest)
    have hrest : ∀ s ∈ rest, '=' ∉ s.data := fun s hs => h s (List.mem_cons_of_mem seg hs)
    by_cases hr : GoEnv.lower seg = "required"
    · simp [GoEnv.parseTagAux, GoEnv.applySegment, GoEnv.splitFirstEq_of_no_eq seg hseg,
        hr, ih _ hrest, GoEnv.tagKeysOf, GoEnv.hasBareRequired]
    · simp [GoEnv.parseTagAux, GoEnv.applySegment, GoEnv.splitFirstEq_of_no_eq seg hseg,
        hr, ih _ hrest, GoEnv.tagKeysOf, GoEnv.hasBareRequired, List.append_assoc]

/-- If every candidate key is absent, the resolution finds nothing. -/
theorem GoEnv.firstPresent_of_all_none (es : GoEnv.envSet) (ks : List String)
    (h : ∀ k ∈ ks, GoEnv.envLookup es k = none) :
    GoEnv.firstPresent es ks = none := by
  induction ks with
  | nil => rfl
  | cons k rest ih =>
    simp only [GoEnv.firstPresent, h k (List.mem_cons_self k rest)]
    exact ih fun x hx => h x (List.mem_cons_of_mem k hx)

/-- The first candidate key present in the environment set wins: keys
before it are absent, keys after it are not consulted. -/
theorem GoEnv.firstPresent_first (es : GoEnv.envSet) (pre : List String) (k : String)
    (post : List String) (v : String)
    (hpre : ∀ x ∈ pre, GoEnv.envLookup es x = none)
    (hk : GoEnv.envLookup es k = some v) :
    GoEnv.firstPresent es (pre ++ k :: post) = some v := by
  induction pre with
  | nil => simp [GoEnv.firstPresent, hk]
  | cons x rest ih =>
    simp only [List.cons_append, GoEnv.firstPresent, hpre x (List.mem_cons_self x rest)]
    exact ih fun y hy => hpre y (List.mem_cons_of_mem x hy)

/-- Type coercion never produces a missing-required error: that error
only arises from an unresolved required field. -/
theorem GoEnv.setValue_ne_missing (ty : GoEnv.fieldType) (raw x : String) :
    GoEnv.setValue ty raw ≠ .error (.errMissingRequiredValue x) := by
  induction ty with
  | stringType => simp [GoEnv.setValue]
  | boolType =>
    simp only [GoEnv.setValue]
    cases GoEnv.parseBoolToken raw <;> simp
  | intType =>
    simp only [GoEnv.setValue]
    cases GoEnv.goParseInt64 raw <;> simp
  | floatType =>
    simp only [GoEnv.setValue]
    by_cases hf : GoEnv.goParseFloatOk raw <;> simp [hf]
  | durationType =>
    simp only [GoEnv.setValue]
    by_cases hd : GoEnv.goParseDurationOk raw <;> simp [hd]
  | ptrType inner ih =>
    simp only [GoEnv.setValue]
    cases hv : GoEnv.setValue inner raw with
    | ok v => simp [Except.map]
    | error e =>
      simp only [Except.map]
      intro hcon
      injection hcon with h
      exact ih (by rw [hv, h])
  | customType hook =>
    simp only [GoEnv.setValue]
    cases hook raw <;> simp

/-- Mapping `some` over a coercion result preserves not being a
missing-required error. -/
theorem GoEnv.map_some_ne_missing (r : Except GoEnv.envError GoEnv.value) (x : String)
    (h : r ≠ .error (.errMissingRequiredValue x)) :
    Except.map some r ≠ .error (.errMissingRequiredValue x) := by
  cases r with
  | ok v => simp [Except.map]
  | error e => simpa [Except.map] using h

/-- Unfolding of the field binder once the annotation has parsed into a
rule with a non-empty key list. -/
theorem GoEnv.bindField_parsed (es : GoEnv.envSet) (nm ann : String) (ty : GoEnv.fieldType)
    (t : GoEnv.tagRule) (hne : ann ≠ "") (hp : GoEnv.parseTag ann = .ok t)
    (hk : t.keys ≠ []) :
    GoEnv.bindField es ⟨nm, ty, some ann⟩ =
      match GoEnv.firstPresent es t.keys with
      | some raw => (GoEnv.setValue ty raw).map some
      | none =>
        match t.defaultValue with
        | some d => (GoEnv.setValue ty d).map some
        | none =>
          if t.required then
            .error (.errMissingRequiredValue (String.intercalate "," t.keys))
          else .ok none := by
  simp [GoEnv.bindField, hne, hp, hk]

/-- With no bare `required` segment, every segment is a candidate key. -/
theorem GoEnv.tagKeysOf_of_no_required (segs : List String)
    (h : ∀ s ∈ segs, GoEnv.lower s ≠ "required") :
    GoEnv.tagKeysOf segs = segs := by
  induction segs with
  | nil => rfl
  | cons s rest ih =>
    simp only [GoEnv.tagKeysOf, if_neg (h s (List.mem_cons_self s rest))]
    exact congrArg (s :: ·) (ih fun x hx => h x (List.mem_cons_of_mem s hx))

/-- With no bare `required` segment, none is detected. -/
theorem GoEnv.hasBareRequired_of_no_required (segs : List String)
    (h : ∀ s ∈ segs, GoEnv.lower s ≠ "required") :
    GoEnv.hasBareRequired segs = false := by
  induction segs with
  | nil => rfl
  | cons s rest ih =>
    simp only [GoEnv.hasBareRequired, if_neg (h s (List.mem_cons_self s rest))]
    exact ih fun x hx => h x (List.mem_cons_of_mem s hx)

/-- Splitting on commas always yields at least one segment (Go
`strings.Split` returns `[""]` on the empty string). -/
theorem GoEnv.tagSegments_ne_nil (ann : String) : GoEnv.tagSegments ann ≠ [] := by
  unfold GoEnv.tagSegments
  suffices h : ∀ cs : List Char, GoEnv.splitOnChar ',' cs ≠ [] by
    intro hcon
    exact h ann.data (by simpa using hcon)
  intro cs
  induction cs with
  | nil => simp [GoEnv.splitOnChar]
  | cons c rest ih =>
    simp only [GoEnv.splitOnChar]
    by_cases hc : c = ','
    · simp [hc]
    · simp only [if_neg hc]
      cases GoEnv.splitOnChar ',' rest with
      | nil => simp
      | cons seg segs => simp

/-! ### Claim theorems -/

/-- C5: for every target that is nil, not a pointer, or a pointer to a
non-struct value, `unmarshal` (`decode_from_set`) fails with the
invalid-value error carrying the concrete type name of the target
(`"<nil>"`, `"env.testConfig"`, `"*string"` in the test scenarios), and
no field bindings are produced. -/
theorem unmarshal_invalid_target :
    (∀ es : GoEnv.envSet,
       GoEnv.unmarshal es .nilTarget = .error (.errInvalidValue "<nil>"))
  ∧ (∀ (es : GoEnv.envSet) (tn : String),
       GoEnv.unmarshal es (.nonPointer tn) = .error (.errInvalidValue tn))
  ∧ (∀ (es : GoEnv.envSet) (tn : String),
       GoEnv.unmarshal es (.pointerToNonStruct tn) = .error (.errInvalidValue tn))
  ∧ GoEnv.unmarshal [] (.nonPointer "env.testConfig") = .error (.errInvalidValue "env.testConfig")
  ∧ GoEnv.unmarshal [] (.pointerToNonStruct "*string") = .error (.errInvalidValue "*string") :=
  ⟨fun _ => rfl, fun _ _ => rfl, fun _ _ => rfl, rfl, rfl⟩

/-- C9: `checkStatusCode` returns no error exactly for status 200; on
status 429 it parses the `Retry-After` header as a base-10 integer `n`
and returns the rate-limit error whose retry duration is
`n * time.Second` (equal to `n` seconds in nanoseconds whenever the
product fits in a signed 64-bit integer), or the parse error when the
header does not parse; every other non-200 status yields the
unexpected-status-code error. -/
theorem checkStatusCode_spec :
    (∀ (st : Nat) (h : String), GoSlack.checkStatusCode st h = none ↔ st = 200)
  ∧ (∀ (h : String) (n : Int), GoEnv.goParseInt64 h = some n →
       GoSlack.checkStatusCode 429 h =
         some (.rateLimit (GoSlack.int64Wrap (n * 1000000000)))
       ∧ (-(2 ^ 63) ≤ n * 1000000000 → n * 1000000000 < 2 ^ 63 →
           GoSlack.int64Wrap (n * 1000000000) = n * 1000000000))
  ∧ (∀ h : String, GoEnv.goParseInt64 h = none →
       GoSlack.checkStatusCode 429 h = some (.retryAfterParseFailed h))
  ∧ (∀ (st : Nat) (h : String), st ≠ 200 → st ≠ 429 →
       GoSlack.checkStatusCode st h = some (.unexpectedStatusCode st)) := by
  refine ⟨?_, ?_, ?_, ?_⟩
  · intro st h
    by_cases h429 : st = 429
    · subst h429
      cases hp : GoEnv.goParseInt64 h <;> simp [GoSlack.checkStatusCode, hp]
    · by_cases h200 : st = 200 <;> simp [GoSlack.checkStatusCode, h429, h200]
  · intro h n hp
    refine ⟨by simp [GoSlack.checkStatusCode, hp], fun hlo hhi => ?_⟩
    unfold GoSlack.int64Wrap
    omega
  · intro h hp
    simp [GoSlack.checkStatusCode, hp]
  · intro st h h200 h429
    simp [GoSlack.checkStatusCode, h429, h200]

/-- Witness for C9: concrete responses exercising each branch of
`checkStatusCode_spec`. -/
theorem checkStatusCode_spec_witness :
    GoSlack.checkStatusCode 200 "" = none
  ∧ GoSlack.checkStatusCode 429 "30" = some (.rateLimit 30000000000)
  ∧ GoSlack.checkStatusCode 429 "oops" = some (.retryAfterParseFailed "oops")
  ∧ GoSlack.checkStatusCode 500 "" = some (.unexpectedStatusCode 500) := by
  refine ⟨(checkStatusCode_spec.1 200 "").mpr rfl, ?_, ?_, ?_⟩
  · have h := checkStatusCode_spec.2.1 "30" 30 (by decide)
    have hv : GoSlack.int64Wrap (30 * 1000000000) = 30000000000 :=
      h.2 (by decide) (by decide)
    rw [h.1, hv]
  · exact checkStatusCode_spec.2.2.1 "oops" (by decide)
  · exact checkStatusCode_spec.2.2.2 500 "" (by decide) (by decide)

/-- C10: whenever `GetAFile` sees a response with status 404 it returns
a nil `FileInfo` and the non-nil `file not found` error naming the file
path; the later branch in the same function that would return
`(nil, nil)` on status 404 is unreachable for every status code; and
`GetBranch`, by contrast, returns `(nil, nil)` on status 404. -/
theorem getAFile_notFound_spec :
    (∀ (p : String) (resp : GoGit.httpResponse) (decode : Except String GoGit.FileInfo),
       resp.statusCode = 404 →
       GoGit.getAFile p resp decode = (none, some (.fileNotFound p)))
  ∧ (∀ st : Nat, GoGit.getAFileDeadBranchTaken st = false)
  ∧ (∀ (b : String) (resp : GoGit.httpResponse) (decode : Except String GoGit.BranchInfo),
       resp.statusCode = 404 →
       GoGit.getBranch b resp decode = (none, none)) := by
  refine ⟨?_, ?_, ?_⟩
  · intro p resp decode h404
    simp [GoGit.getAFile, h404]
  · intro st
    unfold GoGit.getAFileDeadBranchTaken
    split_ifs <;> rfl
  · intro b resp decode h404
    simp [GoGit.getBranch, h404]

/-- Witness for C10: a concrete 404 response through `getAFile` and
`getBranch`. -/
theorem getAFile_notFound_spec_witness :
    GoGit.getAFile "path/to/file" ⟨404, "404 Not Found"⟩ (.error "no body") =
      (none, some (.fileNotFound "path/to/file"))
  ∧ GoGit.getAFileDeadBranchTaken 404 = false
  ∧ GoGit.getBranch "main" ⟨404, "404 Not Found"⟩ (.error "no body") = (none, none) :=
  ⟨getAFile_notFound_spec.1 "path/to/file" ⟨404, "404 Not Found"⟩ (.error "no body") rfl,
   getAFile_notFound_spec.2.1 404,
   getAFile_notFound_spec.2.2 "main" ⟨404, "404 Not Found"⟩ (.error "no body") rfl⟩

/-- C1 counterexample: the annotation `"TEST_STRING"` of `testConfig`
lists only a candidate key name (no `required` and no `default`
modifier), yet the parsed rule has `required = false` — not `true` as
claimed — and binding the field against the empty environment set
succeeds instead of failing. -/
theorem parseTag_keys_only_not_required_cex :
    GoEnv.parseTag "TEST_STRING" = .ok ⟨["TEST_STRING"], false, none⟩
  ∧ GoEnv.bindField [] ⟨"String", .stringType, some "TEST_STRING"⟩ = .ok none :=
  ⟨rfl, rfl⟩

/-- C1 (amended): for every field whose annotation lists only candidate
key names — each comma segment is `'='`-free and none is the bare
(case-insensitive) `required` modifier — the parsed rule has
`required = false` and no default, so binding succeeds when none of the
candidate keys is present in the environment set, leaving the field at
its zero value. -/
theorem parseTag_keys_only_optional (ann nm : String) (es : GoEnv.envSet)
    (ty : GoEnv.fieldType)
    (hseg : ∀ s ∈ GoEnv.tagSegments ann, '=' ∉ s.data)
    (hnr : ∀ s ∈ GoEnv.tagSegments ann, GoEnv.lower s ≠ "required")
    (habs : ∀ k ∈ GoEnv.tagSegments ann, GoEnv.envLookup es k = none) :
    GoEnv.parseTag ann = .ok ⟨GoEnv.tagSegments ann, false, none⟩
  ∧ GoEnv.bindField es ⟨nm, ty, some ann⟩ = .ok none := by
  have hkeys : GoEnv.tagKeysOf (GoEnv.tagSegments ann) = GoEnv.tagSegments ann :=
    GoEnv.tagKeysOf_of_no_required _ hnr
  have hbr : GoEnv.hasBareRequired (GoEnv.tagSegments ann) = false :=
    GoEnv.hasBareRequired_of_no_required _ hnr
  have hp : GoEnv.parseTag ann = .ok ⟨GoEnv.tagSegments ann, false, none⟩ := by
    unfold GoEnv.parseTag
    rw [GoEnv.parseTagAux_no_eq _ _ hseg]
    simp [GoEnv.initTag, hkeys, hbr]
  refine ⟨hp, ?_⟩
  by_cases hann : ann = ""
  · subst hann
    rfl
  · rw [GoEnv.bindField_parsed es nm ann ty _ hann hp (GoEnv.tagSegments_ne_nil ann)]
    rw [GoEnv.firstPresent_of_all_none es _ habs]
    rfl

/-- Witness for the amended C1: the two-key annotation of the
`Multiple` field of `testConfig`, with an empty environment set. -/
theorem parseTag_keys_only_optional_witness :
    GoEnv.parseTag "TEST_MULTIPLE_1,TEST_MULTIPLE_2" =
      .ok ⟨["TEST_MULTIPLE_1", "TEST_MULTIPLE_2"], false, none⟩
  ∧ GoEnv.bindField [] ⟨"Multiple", .stringType, some "TEST_MULTIPLE_1,TEST_MULTIPLE_2"⟩ =
      .ok none := by
  have h := parseTag_keys_only_optional "TEST_MULTIPLE_1,TEST_MULTIPLE_2" "Multiple" []
    .stringType (by decide) (by decide) (by decide)
  exact ⟨h.1, h.2⟩

/-- C2: for every annotation containing the bare `required` modifier
(with `'='`-free segments, so no `default` and no `required=` override)
and at least one candidate key, when every candidate key is absent from
the environment set the binder fails with the missing-required-value
error naming the field's candidate keys; and when a candidate key is
present the binder never returns a missing-required-value error. -/
theorem bindField_bare_required_missing (ann nm : String) (ty : GoEnv.fieldType)
    (es es2 : GoEnv.envSet)
    (hseg : ∀ s ∈ GoEnv.tagSegments ann, '=' ∉ s.data)
    (hreq : GoEnv.hasBareRequired (GoEnv.tagSegments ann) = true)
    (hkey : GoEnv.tagKeysOf (GoEnv.tagSegments ann) ≠ [])
    (habs : ∀ k ∈ GoEnv.tagKeysOf (GoEnv.tagSegments ann), GoEnv.envLookup es k = none) :
    GoEnv.bindField es ⟨nm, ty, some ann⟩ =
      .error (.errMissingRequiredValue
        (String.intercalate "," (GoEnv.tagKeysOf (GoEnv.tagSegments ann))))
  ∧ (∀ raw, GoEnv.firstPresent es2 (GoEnv.tagKeysOf (GoEnv.tagSegments ann)) = some raw →
      ∀ x, GoEnv.bindField es2 ⟨nm, ty, some ann⟩ ≠
        .error (.errMissingRequiredValue x)) := by
  have hann : ann ≠ "" := by
    intro h
    subst h
    exact absurd hreq (by decide)
  have hp : GoEnv.parseTag ann =
      .ok ⟨GoEnv.tagKeysOf (GoEnv.tagSegments ann), true, none⟩ := by
    unfold GoEnv.parseTag
    rw [GoEnv.parseTagAux_no_eq _ _ hseg]
    simp [GoEnv.initTag, hreq]
  constructor
  · rw [GoEnv.bindField_parsed es nm ann ty _ hann hp hkey]
    rw [GoEnv.firstPresent_of_all_none es _ habs]
    rfl
  · intro raw hraw x
    rw [GoEnv.bindField_parsed es2 nm ann ty _ hann hp hkey, hraw]
    exact GoEnv.map_some_ne_missing _ x (GoEnv.setValue_ne_missing ty raw x)

/-- Witness for C2: the `Required` field of `testConfig`
(`env:"TEST_REQUIRED,required"`) against the empty environment set and
against a set containing `TEST_REQUIRED`. -/
theorem bindField_bare_required_missing_witness :
    GoEnv.bindField [] ⟨"Required", .stringType, some "TEST_REQUIRED,required"⟩ =
      .error (.errMissingRequiredValue "TEST_REQUIRED")
  ∧ GoEnv.bindField [("TEST_REQUIRED", "value")]
      ⟨"Required", .stringType, some "TEST_REQUIRED,required"⟩ ≠
      .error (.errMissingRequiredValue "TEST_REQUIRED") := by
  have h := bindField_bare_required_missing "TEST_REQUIRED,required" "Required" .stringType
    [] [("TEST_REQUIRED", "value")] (by decide) (by decide) (by decide) (by decide)
  exact ⟨h.1, h.2 "value" rfl "TEST_REQUIRED"⟩

/-- C3: for every field whose parsed rule has candidate keys
`pre ++ k :: post`, when every key of `pre` is absent and `k` is present
with value `v` (presence includes being mapped to the empty string), the
binder assigns the value of `k`; in particular, with annotation
`"KEY1,KEY2"` and an environment set containing only `KEY2`, binding
succeeds and the field equals the value of `KEY2`; and a first key
mapped to the empty string counts as present and wins. -/
theorem bindField_first_present_wins (ann nm : String) (es : GoEnv.envSet)
    (t : GoEnv.tagRule) (pre post : List String) (k v : String)
    (hne : ann ≠ "") (hp : GoEnv.parseTag ann = .ok t)
    (hkeys : t.keys = pre ++ k :: post)
    (hpre : ∀ x ∈ pre, GoEnv.envLookup es x = none)
    (hk : GoEnv.envLookup es k = some v) :
    GoEnv.bindField es ⟨nm, .stringType, some ann⟩ = .ok (some (.vString v))
  ∧ GoEnv.unmarshal [("KEY2", "second")]
      (.pointerToStruct [⟨"Multiple", .stringType, some "KEY1,KEY2"⟩]) =
      .ok [("Multiple", some (.vString "second"))]
  ∧ GoEnv.firstPresent [("KEY1", "")] ["KEY1", "KEY2"] = some "" := by
  refine ⟨?_, rfl, rfl⟩
  have hknil : t.keys ≠ [] := by
    rw [hkeys]
    exact List.append_ne_nil_of_right_ne_nil pre (List.cons_ne_nil k post)
  rw [GoEnv.bindField_parsed es nm ann .stringType t hne hp hknil, hkeys,
    GoEnv.firstPresent_first es pre k post v hpre hk]
  rfl

/-- Witness for C3: the annotation `"KEY1,KEY2"` against an environment
set containing only `KEY2`. -/
theorem bindField_first_present_wins_witness :
    GoEnv.bindField [("KEY2", "second")] ⟨"Multiple", .stringType, some "KEY1,KEY2"⟩ =
      .ok (some (.vString "second")) := by
  have h := bindField_first_present_wins "KEY1,KEY2" "Multiple" [("KEY2", "second")]
    ⟨["KEY1", "KEY2"], false, none⟩ ["KEY1"] [] "KEY2" "second"
    (by decide) rfl rfl (by decide) rfl
  exact h.1

/-- C4: for every annotation whose segments are
`pre ++ ("default=" ++ X) :: post` with `pre` and `post` free of `'='`
(so they contribute only candidate keys and possibly the bare `required`
modifier), the parsed rule's default is exactly `X`; and when every
candidate key is absent from the environment set, binding succeeds and
the field equals `X` byte for byte — regardless of whether the same
annotation also marks the field `required` (the default takes
precedence, no missing-required error). -/
theorem bindField_default_wins (ann nm X : String) (es : GoEnv.envSet)
    (pre post : List String)
    (hsegs : GoEnv.tagSegments ann = pre ++ ("default=" ++ X) :: post)
    (hpre : ∀ s ∈ pre, '=' ∉ s.data) (hpost : ∀ s ∈ post, '=' ∉ s.data)
    (hkey : GoEnv.tagKeysOf pre ++ GoEnv.tagKeysOf post ≠ [])
    (habs : ∀ k ∈ GoEnv.tagKeysOf pre ++ GoEnv.tagKeysOf post,
      GoEnv.envLookup es k = none) :
    GoEnv.parseTag ann = .ok ⟨GoEnv.tagKeysOf pre ++ GoEnv.tagKeysOf post,
      GoEnv.hasBareRequired pre || GoEnv.hasBareRequired post, some X⟩
  ∧ GoEnv.bindField es ⟨nm, .stringType, some ann⟩ = .ok (some (.vString X)) := by
  have hs0 : GoEnv.splitFirstEq ("default=" ++ X) = some ("default", X) := by
    have h1 : ("default=" ++ X : String) = "default" ++ "=" ++ X := rfl
    rw [h1]
    exact GoEnv.splitFirstEq_append "default" X (by decide)
  have happ : ∀ t : GoEnv.tagRule,
      GoEnv.applySegment t ("default=" ++ X) = .ok { t with defaultValue := some X } := by
    intro t
    simp [GoEnv.applySegment, hs0, show GoEnv.lower "default" = "default" from rfl]
  have hp : GoEnv.parseTag ann = .ok ⟨GoEnv.tagKeysOf pre ++ GoEnv.tagKeysOf post,
      GoEnv.hasBareRequired pre || GoEnv.hasBareRequired post, some X⟩ := by
    unfold GoEnv.parseTag
    rw [hsegs, GoEnv.parseTagAux_append, GoEnv.parseTagAux_no_eq pre _ hpre]
    simp only [GoEnv.parseTagAux, happ, GoEnv.parseTagAux_no_eq post _ hpost]
    simp [GoEnv.initTag]
  have hann : ann ≠ "" := by
    intro h
    subst h
    have h0 : GoEnv.tagSegments "" = [""] := rfl
    rw [h0] at hsegs
    cases pre with
    | nil =>
      simp only [List.nil_append] at hsegs
      injection hsegs with h1 h2
      have h3 := congrArg String.length h1
      rw [String.length_append, show ("default=" : String).length = 8 from rfl,
        show ("" : String).length = 0 from rfl] at h3
      omega
    | cons a l =>
      have hlen := congrArg List.length hsegs
      simp only [List.length_cons, List.length_append, List.length_nil] at hlen
      omega
  refine ⟨hp, ?_⟩
  rw [GoEnv.bindField_parsed es nm ann .stringType _ hann hp hkey,
    GoEnv.firstPresent_of_all_none es _ habs]
  rfl

/-- Witness for C4: the annotation
`"TEST_DEFAULT,required,default=defaultValue"` — carrying both the bare
`required` modifier and a default — against the empty environment
set. -/
theorem bindField_default_wins_witness :
    GoEnv.parseTag "TEST_DEFAULT,required,default=defaultValue" =
      .ok ⟨["TEST_DEFAULT"], true, some "defaultValue"⟩
  ∧ GoEnv.bindField []
      ⟨"WithDefault", .stringType, some "TEST_DEFAULT,required,default=defaultValue"⟩ =
      .ok (some (.vString "defaultValue")) := by
  have h := bindField_default_wins "TEST_DEFAULT,required,default=defaultValue"
    "WithDefault" "defaultValue" [] ["TEST_DEFAULT", "required"] []
    (by decide) (by decide) (by decide) (by decide) (by decide)
  exact ⟨h.1, h.2⟩

/-- C6: `envToEnvSet` (`build_environment_set`) splits every entry on
the first `'='` only — the entry `"KEY=a=b"` yields key `"KEY"` with
value `"a=b"`, and in general an entry `k ++ "=" ++ v` with `'='`-free
`k` yields the pair `(k, v)` — and for every input list containing an
entry with no `'='` (all earlier entries being well formed), it fails
with the invalid-environment-entry error naming that entry. -/
theorem envToEnvSet_split_first_eq :
    GoEnv.envToEnvSet ["KEY=a=b"] = .ok [("KEY", "a=b")]
  ∧ (∀ (k v : String) (rest : List String), '=' ∉ k.data →
       GoEnv.envToEnvSet ((k ++ "=" ++ v) :: rest) =
         (GoEnv.envToEnvSet rest).map (fun es => (k, v) :: es))
  ∧ (∀ (pre : List String) (e : String) (post : List String),
       (∀ x ∈ pre, '=' ∈ x.data) → '=' ∉ e.data →
       GoEnv.envToEnvSet (pre ++ e :: post) = .error (.errInvalidEnvSet e)) := by
  refine ⟨rfl, ?_, ?_⟩
  · intro k v rest hk
    simp only [GoEnv.envToEnvSet, GoEnv.splitFirstEq_append k v hk]
    cases GoEnv.envToEnvSet rest <;> simp [Except.map]
  · intro pre e post hpre he
    induction pre with
    | nil =>
      simp only [List.nil_append, GoEnv.envToEnvSet, GoEnv.splitFirstEq_of_no_eq e he]
    | cons x rest ih =>
      have hx : '=' ∈ x.data := hpre x (List.mem_cons_self x rest)
      have hxs : GoEnv.splitFirstEq x ≠ none := by
        intro hn
        rw [GoEnv.splitFirstEq, Option.map_eq_none'] at hn
        exact absurd hx ((GoEnv.splitEqList_eq_none x.data).mp hn)
      cases hsp : GoEnv.splitFirstEq x with
      | none => exact absurd hsp hxs
      | some p =>
        have hrec := ih fun y hy => hpre y (List.mem_cons_of_mem x hy)
        simp only [List.cons_append, GoEnv.envToEnvSet, hsp]
        rw [show rest.append (e :: post) = rest ++ e :: post from rfl, hrec]

/-- Witness for C6: a well-formed list whose first entry's value
contains `'='`, and a list containing the malformed entry
`"MALFORMED"` between well-formed entries. -/
theorem envToEnvSet_split_first_eq_witness :
    GoEnv.envToEnvSet ["KEY=a=b", "X=1"] = .ok [("KEY", "a=b"), ("X", "1")]
  ∧ GoEnv.envToEnvSet ["A=1", "MALFORMED", "B=2"] = .error (.errInvalidEnvSet "MALFORMED") := by
  have h2 := envToEnvSet_split_first_eq.2.1 "KEY" "a=b" ["X=1"] (by decide)
  have h3 := envToEnvSet_split_first_eq.2.2 ["A=1"] "MALFORMED" ["B=2"] (by decide) (by decide)
  exact ⟨h2.trans rfl, h3⟩

/-- C7: a boolean-typed field accepts a resolved raw string exactly when
it is a case-insensitive member of
`{true, false, 1, 0, yes, no, on, off}`, mapped to the corresponding
truth value, and every other string makes the coercion fail with the
invalid-value error; integer, float, and duration fields likewise fail
with the invalid-value error on non-parsing strings, as exercised by
binding `testConfig` against the `not-a-bool`/`not-an-int`/
`not-a-float`/`not-a-duration` environment sets of `TestInvalidValues`. -/
theorem setValue_coercion_errors :
    (∀ s : String,
       (GoEnv.setValue .boolType s = .ok (.vBool true) ↔
         GoEnv.lower s = "true" ∨ GoEnv.lower s = "1" ∨
         GoEnv.lower s = "yes" ∨ GoEnv.lower s = "on")
     ∧ (GoEnv.setValue .boolType s = .ok (.vBool false) ↔
         GoEnv.lower s = "false" ∨ GoEnv.lower s = "0" ∨
         GoEnv.lower s = "no" ∨ GoEnv.lower s = "off")
     ∧ (GoEnv.lower s ∉
         (["true", "1", "yes", "on", "false", "0", "no", "off"] : List String) →
         GoEnv.setValue .boolType s = .error (.errInvalidValue s)))
  ∧ (∀ s, GoEnv.goParseInt64 s = none →
       GoEnv.setValue .intType s = .error (.errInvalidValue s))
  ∧ (∀ s, GoEnv.goParseFloatOk s = false →
       GoEnv.setValue .floatType s = .error (.errInvalidValue s))
  ∧ (∀ s, GoEnv.goParseDurationOk s = false →
       GoEnv.setValue .durationType s = .error (.errInvalidValue s))
  ∧ GoEnv.unmarshal [("TEST_BOOL", "not-a-bool")] (.pointerToStruct GoEnv.testConfigFields) =
      .error (.errInvalidValue "not-a-bool")
  ∧ GoEnv.unmarshal [("TEST_INT", "not-an-int")] (.pointerToStruct GoEnv.testConfigFields) =
      .error (.errInvalidValue "not-an-int")
  ∧ GoEnv.unmarshal [("TEST_FLOAT", "not-a-float")] (.pointerToStruct GoEnv.testConfigFields) =
      .error (.errInvalidValue "not-a-float")
  ∧ GoEnv.unmarshal [("TEST_DURATION", "not-a-duration")]
      (.pointerToStruct GoEnv.testConfigFields) =
      .error (.errInvalidValue "not-a-duration") := by
  refine ⟨?_, ?_, ?_, ?_, rfl, rfl, rfl, rfl⟩
  · intro s
    by_cases h1 : GoEnv.lower s = "true" ∨ GoEnv.lower s = "1" ∨
        GoEnv.lower s = "yes" ∨ GoEnv.lower s = "on"
    · refine ⟨by simp [GoEnv.setValue, GoEnv.parseBoolToken, h1], ?_, ?_⟩
      · rcases h1 with h | h | h | h <;>
          simp [GoEnv.setValue, GoEnv.parseBoolToken, h]
      · intro hmem
        exact absurd (by rcases h1 with h | h | h | h <;> simp [h]) hmem
    · by_cases h2 : GoEnv.lower s = "false" ∨ GoEnv.lower s = "0" ∨
          GoEnv.lower s = "no" ∨ GoEnv.lower s = "off"
      · refine ⟨?_, by simp [GoEnv.setValue, GoEnv.parseBoolToken, h1, h2], ?_⟩
        · rcases h2 with h | h | h | h <;>
            simp [GoEnv.setValue, GoEnv.parseBoolToken, h]
        · intro hmem
          exact absurd (by rcases h2 with h | h | h | h <;> simp [h]) hmem
      · refine ⟨by simp [GoEnv.setValue, GoEnv.parseBoolToken, h1, h2],
          by simp [GoEnv.setValue, GoEnv.parseBoolToken, h1, h2], ?_⟩
        intro _
        simp [GoEnv.setValue, GoEnv.parseBoolToken, h1, h2]
  · intro s h
    simp [GoEnv.setValue, h]
  · intro s h
    simp [GoEnv.setValue, h]
  · intro s h
    simp [GoEnv.setValue, h]

/-- Witness for C7: concrete accepted and rejected coercion inputs fed
through `setValue_coercion_errors`. -/
theorem setValue_coercion_errors_witness :
    GoEnv.setValue .boolType "TRUE" = .ok (.vBool true)
  ∧ GoEnv.setValue .boolType "Off" = .ok (.vBool false)
  ∧ GoEnv.setValue .boolType "not-a-bool" = .error (.errInvalidValue "not-a-bool")
  ∧ GoEnv.setValue .intType "not-an-int" = .error (.errInvalidValue "not-an-int")
  ∧ GoEnv.setValue .floatType "not-a-float" = .error (.errInvalidValue "not-a-float")
  ∧ GoEnv.setValue .durationType "not-a-duration" =
      .error (.errInvalidValue "not-a-duration") :=
  ⟨((setValue_coercion_errors.1 "TRUE").1).mpr (by decide),
   ((setValue_coercion_errors.1 "Off").2.1).mpr (by decide),
   ((setValue_coercion_errors.1 "not-a-bool").2.2) (by decide),
   setValue_coercion_errors.2.1 "not-an-int" (by decide),
   setValue_coercion_errors.2.2.1 "not-a-float" (by decide),
   setValue_coercion_errors.2.2.2.1 "not-a-duration" (by decide)⟩

/-- C8: for every field whose type implements the custom-unmarshal
capability, the binder invokes the hook with the resolved raw string
unmodified instead of built-in coercion, stores whatever the hook
writes, and propagates any error the hook returns; in the test scenario
(annotation `TEST_CUSTOM`, environment value `"value"`) the stored
result is `"custom_value"`. -/
theorem setValue_custom_hook :
    (∀ (hook : String → Except String String) (raw out : String),
       hook raw = .ok out →
       GoEnv.setValue (.customType hook) raw = .ok (.vCustom out))
  ∧ (∀ (hook : String → Except String String) (raw e : String),
       hook raw = .error e →
       GoEnv.setValue (.customType hook) raw = .error (.errCustom e))
  ∧ GoEnv.customUnmarshalerHook "value" = .ok "custom_value"
  ∧ GoEnv.unmarshal [("TEST_CUSTOM", "value")]
      (.pointerToStruct GoEnv.testConfigWithCustomFields) =
      .ok [("Custom", some (.vCustom "custom_value"))] := by
  refine ⟨?_, ?_, rfl, rfl⟩
  · intro hook raw out h
    simp [GoEnv.setValue, h]
  · intro hook raw e h
    simp [GoEnv.setValue, h]

/-- Witness for C8: the test hook (`"custom_" ++ data`, never failing)
applied through `setValue_custom_hook`, and a hook returning an error. -/
theorem setValue_custom_hook_witness :
    GoEnv.setValue (.customType GoEnv.customUnmarshalerHook) "value" =
      .ok (.vCustom "custom_value")
  ∧ GoEnv.setValue (.customType fun _ => .error "boom") "value" =
      .error (.errCustom "boom") :=
  ⟨setValue_custom_hook.1 GoEnv.customUnmarshalerHook "value" "custom_value" rfl,
   setValue_custom_hook.2.1 (fun _ => .error "boom") "value" "boom" rfl⟩
